import Mathlib

/-!
Verification of the oblivion tun2socks wrapper (app/libs/tun2socks.go).

The Go source is shallowly embedded below: the argument tokenizer
(`parseCommandLine`), the flag resolution performed by `RunWarp` through a
`flag.FlagSet`, the forwarding-engine start options built in `runServer`,
the log buffer drain (`GetLogMessages`), the `Shutdown` guard, and a
small transition system for the supervisor's cancellation/cleanup
ordering.
-/

namespace Oblivion

/-- The double-quote character, written via its code point. -/
def dquoteChar : Char := Char.ofNat 34

/-- The single-quote character, written via its code point. -/
def squoteChar : Char := Char.ofNat 39

/-- Word characters matched by the regexp class in the Go pattern:
ASCII letters, digits and underscore. -/
def isWordChar (c : Char) : Bool := c.isAlphanum || c == '_'

/-- Characters stripped from both ends of a matched value
(the Go code trims the cutset of both quote characters). -/
def isQuoteChar (c : Char) : Bool := c == dquoteChar || c == squoteChar

/-- The character class of the final regexp alternative: any character
other than a space. -/
def notSpaceChar (c : Char) : Bool := c != ' '

/-- Split a character list at the first occurrence of `t`: the part
before it and the part after it, or `none` when `t` does not occur.
Used for the closing quote of a quoted value. -/
def splitAtFirst (t : Char) : List Char → Option (List Char × List Char)
  | [] => none
  | c :: rest =>
    if c = t then some ([], rest)
    else
      match splitAtFirst t rest with
      | some (pre, post) => some (c :: pre, post)
      | none => none

/-- Greedy match of the regexp alternative of one or more non-space
characters: the maximal nonempty run and the remainder, or `none` when
the list starts with a space or is empty. -/
def nonSpaceRun (l : List Char) : Option (List Char × List Char) :=
  match l.takeWhile notSpaceChar with
  | [] => none
  | c :: rest => some (c :: rest, l.dropWhile notSpaceChar)

/-- Anchored match of the flag part of the Go regexp (one or two dashes
followed by a greedy nonempty word run) at the head of the list.
Returns the matched flag text and the remainder. -/
def matchFlagAt : List Char → Option (List Char × List Char)
  | [] => none
  | c :: rest =>
    if c = '-' then
      match rest with
      | [] => none
      | c2 :: rest2 =>
        if c2 = '-' then
          match rest2 with
          | [] => none
          | c3 :: rest3 =>
            if isWordChar c3 then
              some ('-' :: '-' :: (c3 :: rest3).takeWhile isWordChar,
                    (c3 :: rest3).dropWhile isWordChar)
            else none
        else if isWordChar c2 then
          some ('-' :: (c2 :: rest2).takeWhile isWordChar,
                (c2 :: rest2).dropWhile isWordChar)
        else none
    else none

/-- Anchored match of the optional value group of the Go regexp: a
separator (equals sign or single space) followed by, in preference
order, a double-quoted run, a single-quoted run, or a nonempty run of
non-space characters. Returns the raw inner submatch (quotes included)
and the remainder, or `none` when the group does not match. -/
def matchValueGroup : List Char → Option (List Char × List Char)
  | [] => none
  | c :: rest =>
    if c == '=' || c == ' ' then
      match rest with
      | [] => none
      | c2 :: rest2 =>
        if c2 = dquoteChar then
          match splitAtFirst dquoteChar rest2 with
          | some (content, rest3) =>
            some (dquoteChar :: content ++ [dquoteChar], rest3)
          | none => nonSpaceRun (c2 :: rest2)
        else if c2 = squoteChar then
          match splitAtFirst squoteChar rest2 with
          | some (content, rest3) =>
            some (squoteChar :: content ++ [squoteChar], rest3)
          | none => nonSpaceRun (c2 :: rest2)
        else nonSpaceRun (c2 :: rest2)
    else none

/-- One scanning pass of FindAllStringSubmatch with explicit fuel
(structural recursion; `findMatches` below instantiates the fuel with
the list length, which the lemmas show is always sufficient). Each
entry is the flag submatch paired with the raw value submatch, the
empty list when the value group is absent, exactly as Go represents an
unmatched submatch by the empty string. -/
def findMatchesFuel : Nat → List Char → List (List Char × List Char)
  | 0, _ => []
  | _ + 1, [] => []
  | fuel + 1, c :: rest =>
    match matchFlagAt (c :: rest) with
    | some (flag, rest2) =>
      match matchValueGroup rest2 with
      | some (v, rest3) => (flag, v) :: findMatchesFuel fuel rest3
      | none => (flag, []) :: findMatchesFuel fuel rest2
    | none => findMatchesFuel fuel rest

/-- All successive non-overlapping leftmost matches of the Go regexp
over the input. -/
def findMatches (l : List Char) : List (List Char × List Char) :=
  findMatchesFuel l.length l

/-- strings.Trim of the quote cutset: remove leading and trailing
quote characters (of either kind) from a matched value. -/
def trimCutset (l : List Char) : List Char :=
  ((l.dropWhile isQuoteChar).reverse.dropWhile isQuoteChar).reverse

/-- The tokens contributed by one regexp match: the flag name, then,
when the value submatch is nonempty, the value with surrounding quotes
trimmed. -/
def matchTokens (m : List Char × List Char) : List String :=
  if m.2.isEmpty then [m.1.asString]
  else [m.1.asString, (trimCutset m.2).asString]

/-- parseCommandLine from tun2socks.go: tokenize the free-form argument
string via the regexp and emit flag and value tokens. The Go function
always returns a nil error; the second component models that error. -/
def parseCommandLine (argStr : String) : List String × Option String :=
  (((findMatches argStr.toList).map matchTokens).flatten, none)

/-! ### Flag resolution (RunWarp's FlagSet)

RunWarp registers v, b, e, k, country, cfon, gool and scan on the local
FlagSet fs, but rtt via flag.Int on the package-global FlagSet, which is
never parsed; fs is created with flag.ExitOnError, so any parse error
aborts startup. The Configuration record collects the pointed-to values
after fs.Parse. -/

/-- The resolved flag values of RunWarp. rtt is the package-global flag
variable; it keeps its registration default unless the global FlagSet
were parsed (it never is). -/
structure Configuration where
  verbose : Bool
  bindAddress : String
  endpoint : String
  license : String
  country : String
  psiphonEnabled : Bool
  gool : Bool
  scan : Bool
  rtt : Int
  deriving DecidableEq, Repr

/-- The registration defaults of RunWarp's flag definitions. -/
def defaultConfig : Configuration :=
  { verbose := false
    bindAddress := "127.0.0.1:8086"
    endpoint := "notset"
    license := "notset"
    country := ""
    psiphonEnabled := false
    gool := false
    scan := false
    rtt := 1000 }

/-- The two kinds of flags registered on fs. -/
inductive FlagKind
  | boolFlag
  | strFlag
  deriving DecidableEq

/-- Lookup in fs's formal-flag table: exactly the eight flags RunWarp
registers on fs. rtt is absent, having been registered on the global
FlagSet instead. -/
def fsLookup (name : String) : Option FlagKind :=
  if name = "v" || name = "cfon" || name = "gool" || name = "scan" then
    some FlagKind.boolFlag
  else if name = "b" || name = "e" || name = "k" || name = "country" then
    some FlagKind.strFlag
  else none

/-- strconv.ParseBool: the exact set of accepted literals. -/
def goParseBool (s : String) : Option Bool :=
  if s = "1" || s = "t" || s = "T" || s = "true" || s = "TRUE" || s = "True" then
    some true
  else if s = "0" || s = "f" || s = "F" || s = "false" || s = "FALSE" || s = "False" then
    some false
  else none

/-- Store a boolean flag value into the pointed-to variable. -/
def setBool (name : String) (b : Bool) (c : Configuration) : Configuration :=
  if name = "v" then { c with verbose := b }
  else if name = "cfon" then { c with psiphonEnabled := b }
  else if name = "gool" then { c with gool := b }
  else if name = "scan" then { c with scan := b }
  else c

/-- Store a string flag value into the pointed-to variable. -/
def setStr (name : String) (v : String) (c : Configuration) : Configuration :=
  if name = "b" then { c with bindAddress := v }
  else if name = "e" then { c with endpoint := v }
  else if name = "k" then { c with license := v }
  else if name = "country" then { c with country := v }
  else c

/-- Split a flag name at its first equals sign into name and inline
value, as flag.parseOne does. -/
def splitNameValue (l : List Char) : List Char × Option (List Char) :=
  match splitAtFirst '=' l with
  | some (nm, v) => (nm, some v)
  | none => (l, none)

/-- The dash-prefix analysis at the top of flag.parseOne: `none` means
parsing stops (the token is not a flag: empty, a single character,
plain text, or the terminator consisting of two dashes); `some
nameChars` is the flag name text after the dashes. -/
def flagNameChars (s : String) : Option (List Char) :=
  match s.toList with
  | [] => none
  | [_] => none
  | ['-', '-'] => none
  | '-' :: '-' :: nameChars => some nameChars
  | '-' :: nameChars => some nameChars
  | _ => none

/-- fs.Parse over the token list: repeated flag.parseOne against the
table of `fsLookup`, threading the flag variables. An `Except.error`
models the fatal exit taken under flag.ExitOnError. -/
def fsParse : List String → Configuration → Except String Configuration
  | [], c => Except.ok c
  | s :: rest, c =>
    match flagNameChars s with
    | none => Except.ok c
    | some nameChars =>
      match nameChars with
      | [] => Except.error ("bad flag syntax: " ++ s)
      | h :: _ =>
        if h = '-' || h = '=' then Except.error ("bad flag syntax: " ++ s)
        else
          let nv := splitNameValue nameChars
          let name := nv.1.asString
          match fsLookup name with
          | none =>
            if name = "help" || name = "h" then
              Except.error "flag: help requested"
            else
              Except.error ("flag provided but not defined: -" ++ name)
          | some FlagKind.boolFlag =>
            match nv.2 with
            | some v =>
              match goParseBool v.asString with
              | some b => fsParse rest (setBool name b c)
              | none =>
                Except.error ("invalid boolean value " ++ v.asString ++
                  " for -" ++ name)
            | none => fsParse rest (setBool name true c)
          | some FlagKind.strFlag =>
            match nv.2 with
            | some v => fsParse rest (setStr name v.asString c)
            | none =>
              match rest with
              | [] => Except.error ("flag needs an argument: -" ++ name)
              | v :: rest2 => fsParse rest2 (setStr name v c)

/-- The configuration-resolution phase of RunWarp: tokenize the
argument string, then run fs.Parse on the tokens starting from the
registration defaults. -/
def RunWarpConfig (argStr : String) : Except String Configuration :=
  fsParse (parseCommandLine argStr).1 defaultConfig

instance {ε α : Type} [DecidableEq ε] [DecidableEq α] :
    DecidableEq (Except ε α) := fun a b =>
  match a, b with
  | Except.ok x, Except.ok y =>
    if h : x = y then isTrue (by rw [h])
    else isFalse (by intro hc; cases hc; exact h rfl)
  | Except.error x, Except.error y =>
    if h : x = y then isTrue (by rw [h])
    else isFalse (by intro hc; cases hc; exact h rfl)
  | Except.ok _, Except.error _ => isFalse (by intro hc; cases hc)
  | Except.error _, Except.ok _ => isFalse (by intro hc; cases hc)

/-! ### runServer's forwarding-engine start options -/

/-- The options record passed to lwip.Start. -/
structure Tun2socksStartOptions where
  tunFd : Int
  socks5Server : String
  fakeIPRange : String
  mtu : Int
  enableIPv6 : Bool
  allowLan : Bool
  deriving DecidableEq, Repr

/-- Whether `pat` is a prefix of `l`. -/
def startsWith : List Char → List Char → Bool
  | [], _ => true
  | _ :: _, [] => false
  | a :: as, b :: bs => a == b && startsWith as bs

/-- Whether `pat` occurs as a contiguous sublist of `l`. -/
def containsSub (pat : List Char) : List Char → Bool
  | [] => startsWith pat []
  | c :: rest => startsWith pat (c :: rest) || containsSub pat rest

/-- strings.Replace with count -1 over character lists, with explicit
fuel (structural recursion; each step consumes at least one character
when `old` is nonempty, so fuel equal to the list length suffices):
replace each leftmost non-overlapping occurrence of `old` by `new`. -/
def replaceAllFuel (old new : List Char) : Nat → List Char → List Char
  | _, [] => []
  | 0, l => l
  | fuel + 1, c :: rest =>
    if old.isEmpty then c :: replaceAllFuel old new fuel rest
    else if startsWith old (c :: rest) then
      new ++ replaceAllFuel old new fuel ((c :: rest).drop old.length)
    else c :: replaceAllFuel old new fuel rest

/-- strings.Replace with count -1 over character lists. -/
def replaceAllList (old new l : List Char) : List Char :=
  replaceAllFuel old new l.length l

/-- strings.Replace(s, old, new, -1) on strings. -/
def goReplaceAll (s old new : String) : String :=
  (replaceAllList old.toList new.toList s.toList).asString

/-- The Tun2socksStartOptions literal built in runServer: the SOCKS
server is the bind address with every occurrence of 0.0.0.0 replaced
by 127.0.0.1; the fake IP range, MTU (0 = automatic), IPv6 and
LAN settings are fixed. -/
def runServerStartOptions (cfg : Configuration) (fd : Int) :
    Tun2socksStartOptions :=
  { tunFd := fd
    socks5Server := goReplaceAll cfg.bindAddress "0.0.0.0" "127.0.0.1"
    fakeIPRange := "24.0.0.0/8"
    mtu := 0
    enableIPv6 := true
    allowLan := true }

/-! ### Log buffer -/

/-- GetLogMessages: on an empty buffer return the empty string and
leave the buffer as it is; otherwise return the lines joined with a
newline (strings.Join) and clear the buffer. The pair is the returned
string together with the buffer contents after the call. -/
def GetLogMessages (buf : List String) : String × List String :=
  if buf.isEmpty then ("", buf)
  else (String.intercalate "\n" buf, [])

/-! ### Shutdown -/

/-- Observable actions a Shutdown call may perform. -/
inductive ShutdownEffect
  | cancelInvoked
  | processExit
  deriving DecidableEq, Repr

/-- The package-global state Shutdown reads: whether cancelFunc is set,
and the log buffer. -/
structure AppState where
  cancelFuncSet : Bool
  logMessages : List String
  deriving DecidableEq, Repr

/-- Shutdown: guarded by the nil check on cancelFunc; when set it
invokes the cancel function and then calls os.Exit(0). Returns the
state after the call and the list of performed effects in order. -/
def Shutdown (s : AppState) : AppState × List ShutdownEffect :=
  if s.cancelFuncSet then
    (s, [ShutdownEffect.cancelInvoked, ShutdownEffect.processExit])
  else (s, [])

/-! ### Supervisor ordering (RunWarp's select/wg.Wait and runServer's
deferred cleanup)

A small transition system over the two relevant control threads.
The caller thread of RunWarp: fire the cancellation (signal received
or Shutdown-triggered context completion), block on wg.Wait (enabled
only when the WaitGroup counter is zero), return. The runServer
goroutine: call lwip.Start, block on ctx.Done (enabled only once the
cancellation fired), then the deferred cleanup: lwip.Stop followed by
wg.Done, which decrements the counter that RunWarp's wg.Add(1) set
to one. -/

/-- Observable events of a session. -/
inductive Ev
  | sigCancel
  | lwipStart
  | ctxDone
  | stop
  | wgDone
  | wgWait
  | ret
  deriving DecidableEq, Repr

/-- Joint state: program counters of the caller thread and the server
goroutine, the WaitGroup counter, and whether the context has been
cancelled. -/
structure SupState where
  mainPc : Nat
  srvPc : Nat
  wg : Nat
  cancelled : Bool
  deriving DecidableEq, Repr

/-- Initial state: after wg.Add(1) and the dispatch of runServer. -/
def initSup : SupState := { mainPc := 0, srvPc := 0, wg := 1, cancelled := false }

/-- Interleaved small-step semantics of the two threads. -/
inductive SupStep : SupState → Ev → SupState → Prop
  | cancel (st : SupState) (h : st.mainPc = 0) :
      SupStep st Ev.sigCancel { st with mainPc := 1, cancelled := true }
  | wait (st : SupState) (h : st.mainPc = 1) (hw : st.wg = 0) :
      SupStep st Ev.wgWait { st with mainPc := 2 }
  | ret (st : SupState) (h : st.mainPc = 2) :
      SupStep st Ev.ret { st with mainPc := 3 }
  | start (st : SupState) (h : st.srvPc = 0) :
      SupStep st Ev.lwipStart { st with srvPc := 1 }
  | ctxDone (st : SupState) (h : st.srvPc = 1) (hc : st.cancelled = true) :
      SupStep st Ev.ctxDone { st with srvPc := 2 }
  | stop (st : SupState) (h : st.srvPc = 2) :
      SupStep st Ev.stop { st with srvPc := 3 }
  | done (st : SupState) (h : st.srvPc = 3) :
      SupStep st Ev.wgDone { st with srvPc := 4, wg := st.wg - 1 }

/-- Executions: a trace of events from one state to another. -/
inductive SupRun : SupState → List Ev → SupState → Prop
  | nil (st : SupState) : SupRun st [] st
  | cons {st st' st'' : SupState} {e : Ev} {tr : List Ev} :
      SupStep st e st' → SupRun st' tr st'' → SupRun st (e :: tr) st''

/-- The completion-relevant events of the claim: stopping the
forwarding engine, releasing the completion synchronizer, returning
from RunWarp. -/
def isCompletionEv : Ev → Bool
  | Ev.stop => true
  | Ev.wgDone => true
  | Ev.ret => true
  | _ => false

/-- The completion events a state has already performed, in order. -/
def completionEvsOf (s : SupState) : List Ev :=
  (if 3 ≤ s.srvPc then [Ev.stop] else []) ++
    (if 4 ≤ s.srvPc then [Ev.wgDone] else []) ++
    (if 3 ≤ s.mainPc then [Ev.ret] else [])

/-- Reachability invariant: the WaitGroup counter is zero exactly when
the server goroutine has run wg.Done, the caller passes wg.Wait only
at counter zero, and the counters stay in range. -/
def SupInv (s : SupState) : Prop :=
  (s.wg = 0 ↔ s.srvPc = 4) ∧ (2 ≤ s.mainPc → s.wg = 0) ∧
    s.wg ≤ 1 ∧ s.srvPc ≤ 4 ∧ s.mainPc ≤ 3

theorem splitAtFirst_length {t : Char} :
    ∀ {l pre post : List Char},
      splitAtFirst t l = some (pre, post) → post.length < l.length := by
  intro l
  induction l with
  | nil => intro pre post h; simp [splitAtFirst] at h
  | cons c rest ih =>
    intro pre post h
    by_cases hc : c = t
    · simp only [splitAtFirst, if_pos hc, Option.some.injEq, Prod.mk.injEq] at h
      obtain ⟨-, h2⟩ := h
      subst h2
      simp
    · simp only [splitAtFirst, if_neg hc] at h
      cases hs : splitAtFirst t rest with
      | none => rw [hs] at h; simp at h
      | some pr =>
        obtain ⟨pre', post'⟩ := pr
        rw [hs] at h
        simp only [Option.some.injEq, Prod.mk.injEq] at h
        obtain ⟨-, h2⟩ := h
        subst h2
        exact Nat.lt_trans (ih hs) (by simp)

theorem nonSpaceRun_length {l run rest : List Char}
    (h : nonSpaceRun l = some (run, rest)) : rest.length < l.length := by
  unfold nonSpaceRun at h
  cases l with
  | nil => simp at h
  | cons a as =>
    by_cases hpa : notSpaceChar a = true
    · rw [List.takeWhile_cons_of_pos hpa] at h
      simp only [Option.some.injEq, Prod.mk.injEq] at h
      obtain ⟨-, h2⟩ := h
      subst h2
      rw [List.dropWhile_cons_of_pos hpa]
      exact Nat.lt_succ_of_le (List.dropWhile_sublist notSpaceChar).length_le
    · rw [List.takeWhile_cons_of_neg (by simpa using hpa)] at h
      simp at h

theorem matchFlagAt_length {l flag rest : List Char}
    (h : matchFlagAt l = some (flag, rest)) : rest.length < l.length := by
  rcases l with _ | ⟨c, _ | ⟨c2, _ | ⟨c3, rest3⟩⟩⟩ <;>
    simp only [matchFlagAt] at h <;>
    repeat' split at h
  all_goals
    first
      | · simp only [Option.some.injEq, Prod.mk.injEq] at h
          obtain ⟨-, h2⟩ := h
          subst h2
          refine Nat.lt_of_le_of_lt (List.dropWhile_sublist isWordChar).length_le ?_
          simp only [List.length_cons]
          omega
      | exact Option.noConfusion h

theorem matchValueGroup_length {l v rest : List Char}
    (h : matchValueGroup l = some (v, rest)) : rest.length < l.length := by
  rcases l with _ | ⟨c, _ | ⟨c2, rest2⟩⟩ <;>
    simp only [matchValueGroup] at h <;>
    repeat' split at h
  all_goals
    first
      | · rename_i content rest3 hs
          simp only [Option.some.injEq, Prod.mk.injEq] at h
          obtain ⟨-, h2⟩ := h
          subst h2
          have := splitAtFirst_length hs
          simp only [List.length_cons]
          omega
      | exact Nat.lt_trans (nonSpaceRun_length h)
          (by simp only [List.length_cons]; omega)
      | exact Option.noConfusion h

theorem findMatchesFuel_congr :
    ∀ (f1 : Nat) (f2 : Nat) (l : List Char), l.length ≤ f1 → l.length ≤ f2 →
      findMatchesFuel f1 l = findMatchesFuel f2 l := by
  intro f1
  induction f1 with
  | zero =>
    intro f2 l h1 h2
    have : l = [] := List.length_eq_zero.mp (Nat.le_zero.mp h1)
    subst this
    cases f2 <;> rfl
  | succ f1' ih =>
    intro f2 l h1 h2
    cases l with
    | nil => cases f2 <;> rfl
    | cons c rest =>
      cases f2 with
      | zero => exact absurd h2 (by simp)
      | succ f2' =>
        simp only [List.length_cons, Nat.succ_le_succ_iff] at h1 h2
        cases hf : matchFlagAt (c :: rest) with
        | none =>
          simp only [findMatchesFuel, hf]
          exact ih f2' rest h1 h2
        | some pr =>
          obtain ⟨flag, rest2⟩ := pr
          have hr2 : rest2.length ≤ rest.length := by
            have := matchFlagAt_length hf
            simp only [List.length_cons] at this
            omega
          cases hv : matchValueGroup rest2 with
          | none =>
            simp only [findMatchesFuel, hf, hv]
            rw [ih f2' rest2 (Nat.le_trans hr2 h1) (Nat.le_trans hr2 h2)]
          | some pv =>
            obtain ⟨v, rest3⟩ := pv
            have hr3 : rest3.length ≤ rest.length := by
              have := matchValueGroup_length hv
              omega
            simp only [findMatchesFuel, hf, hv]
            rw [ih f2' rest3 (Nat.le_trans hr3 h1) (Nat.le_trans hr3 h2)]

theorem findMatchesFuel_eq {f : Nat} {l : List Char} (h : l.length ≤ f) :
    findMatchesFuel f l = findMatches l :=
  findMatchesFuel_congr f l.length l h (Nat.le_refl _)

theorem findMatches_cons_some_some {l flag rest2 v rest3 : List Char}
    (hf : matchFlagAt l = some (flag, rest2))
    (hv : matchValueGroup rest2 = some (v, rest3)) :
    findMatches l = (flag, v) :: findMatches rest3 := by
  cases l with
  | nil => simp [matchFlagAt] at hf
  | cons c rest =>
    have h2 := matchFlagAt_length hf
    have h3 := matchValueGroup_length hv
    simp only [List.length_cons] at h2
    have hle : rest3.length ≤ rest.length := by omega
    unfold findMatches
    simp only [List.length_cons, findMatchesFuel, hf, hv]
    rw [findMatchesFuel_eq hle]
    rfl

theorem findMatches_cons_some_none {l flag rest2 : List Char}
    (hf : matchFlagAt l = some (flag, rest2))
    (hv : matchValueGroup rest2 = none) :
    findMatches l = (flag, []) :: findMatches rest2 := by
  cases l with
  | nil => simp [matchFlagAt] at hf
  | cons c rest =>
    have h2 := matchFlagAt_length hf
    simp only [List.length_cons] at h2
    have hle : rest2.length ≤ rest.length := by omega
    unfold findMatches
    simp only [List.length_cons, findMatchesFuel, hf, hv]
    rw [findMatchesFuel_eq hle]
    rfl

theorem findMatches_cons_none {c : Char} {rest : List Char}
    (hf : matchFlagAt (c :: rest) = none) :
    findMatches (c :: rest) = findMatches rest := by
  unfold findMatches
  simp only [List.length_cons, findMatchesFuel, hf]

theorem supStep_inv {s s' : SupState} {e : Ev} (hs : SupStep s e s')
    (hi : SupInv s) : SupInv s' := by
  obtain ⟨h1, h2, h3, h4, h5⟩ := hi
  cases hs <;> simp_all [SupInv]

theorem supStep_completion {s s' : SupState} {e : Ev} (hs : SupStep s e s')
    (hi : SupInv s) :
    completionEvsOf s' =
      completionEvsOf s ++ (if isCompletionEv e then [e] else []) := by
  obtain ⟨h1, h2, h3, h4, h5⟩ := hi
  cases hs with
  | cancel h => simp_all [completionEvsOf, isCompletionEv]
  | wait h hw => simp_all [completionEvsOf, isCompletionEv]
  | ret h =>
    have hs4 : s.srvPc = 4 := h1.mp (h2 (by omega))
    simp_all [completionEvsOf, isCompletionEv]
  | start h => simp_all [completionEvsOf, isCompletionEv]
  | ctxDone h hc => simp_all [completionEvsOf, isCompletionEv]
  | stop h =>
    have hm3 : ¬ 3 ≤ s.mainPc := by
      intro hcon
      have hw0 := h2 (by omega)
      have := h1.mp hw0
      omega
    have hR : (if 3 ≤ s.mainPc then [Ev.ret] else []) = [] := if_neg hm3
    simp [completionEvsOf, isCompletionEv, h, hR]
  | done h =>
    have hm3 : ¬ 3 ≤ s.mainPc := by
      intro hcon
      have hw0 := h2 (by omega)
      have := h1.mp hw0
      omega
    have hR : (if 3 ≤ s.mainPc then [Ev.ret] else []) = [] := if_neg hm3
    simp [completionEvsOf, isCompletionEv, h, hR]

theorem append_ite_singleton {α : Type} (A F : List α) (c : Prop)
    [Decidable c] (e : α) :
    (A ++ if c then [e] else []) ++ F = A ++ (if c then e :: F else F) := by
  by_cases h : c <;> simp [h]

theorem supRun_completion {s s' : SupState} {tr : List Ev}
    (hr : SupRun s tr s') (hi : SupInv s) :
    SupInv s' ∧
      completionEvsOf s' = completionEvsOf s ++ tr.filter isCompletionEv := by
  induction hr with
  | nil => simp [hi]
  | cons hstep hrest ih =>
    have hi' := supStep_inv hstep hi
    obtain ⟨hfin, heq⟩ := ih hi'
    refine ⟨hfin, ?_⟩
    rw [heq, supStep_completion hstep hi, List.filter_cons]
    exact append_ite_singleton _ _ _ _

/-! ### Symbolic evaluation lemmas for the tokenizer -/

theorem splitAtFirst_eq_none {t : Char} {l : List Char} (h : t ∉ l) :
    splitAtFirst t l = none := by
  induction l with
  | nil => rfl
  | cons c rest ih =>
    have hc : ¬ c = t := fun he => h (he ▸ List.mem_cons_self c rest)
    have hr : t ∉ rest := fun hm => h (List.mem_cons_of_mem c hm)
    simp [splitAtFirst, hc, ih hr]

theorem splitAtFirst_append_self {t : Char} {l : List Char} (h : t ∉ l) :
    splitAtFirst t (l ++ [t]) = some (l, []) := by
  induction l with
  | nil => simp [splitAtFirst]
  | cons c rest ih =>
    have hc : ¬ c = t := fun he => h (he ▸ List.mem_cons_self c rest)
    have hr : t ∉ rest := fun hm => h (List.mem_cons_of_mem c hm)
    simp [splitAtFirst, hc, ih hr]

theorem dropWhile_eq_self_of_all {p : Char → Bool} {l : List Char}
    (h : ∀ a ∈ l, p a = false) : l.dropWhile p = l := by
  cases l with
  | nil => rfl
  | cons c rest =>
    exact List.dropWhile_cons_of_neg (by simp [h c (List.mem_cons_self c rest)])

theorem trimCutset_eq_self {l : List Char}
    (h : ∀ a ∈ l, isQuoteChar a = false) : trimCutset l = l := by
  unfold trimCutset
  rw [dropWhile_eq_self_of_all h,
    dropWhile_eq_self_of_all (fun a ha => h a (List.mem_reverse.mp ha)),
    List.reverse_reverse]

theorem dropWhile_eq_self_of_head {p : Char → Bool} {l : List Char}
    (h : ∀ c, l.head? = some c → p c = false) : l.dropWhile p = l := by
  cases l with
  | nil => rfl
  | cons c rest => exact List.dropWhile_cons_of_neg (by simp [h c rfl])

/-- strings.Trim of a quote-wrapped match strips the wrapping pair and
keeps the content, as long as the content neither begins nor ends with
a quote character (inner quote characters are untouched). -/
theorem trimCutset_wrapped {q : Char} (hq : isQuoteChar q = true)
    {v : List Char} (hv : v ≠ [])
    (hhead : isQuoteChar (v.headD ' ') = false)
    (hlast : isQuoteChar (v.getLastD ' ') = false) :
    trimCutset (q :: v ++ [q]) = v := by
  obtain ⟨c, cs, rfl⟩ : ∃ c cs, v = c :: cs := by
    cases v with
    | nil => exact absurd rfl hv
    | cons c cs => exact ⟨c, cs, rfl⟩
  have hc : isQuoteChar c = false := by simpa using hhead
  unfold trimCutset
  have h1 : List.dropWhile isQuoteChar (q :: (c :: cs) ++ [q]) =
      c :: (cs ++ [q]) := by
    rw [List.cons_append, List.dropWhile_cons_of_pos hq, List.cons_append,
      List.dropWhile_cons_of_neg (by simp [hc])]
  rw [h1]
  have h2 : (c :: (cs ++ [q])).reverse = q :: (c :: cs).reverse := by simp
  rw [h2, List.dropWhile_cons_of_pos hq]
  have h3 : List.dropWhile isQuoteChar (c :: cs).reverse =
      (c :: cs).reverse := by
    apply dropWhile_eq_self_of_head
    intro d hd
    rw [List.head?_reverse] at hd
    have h5 : (c :: cs).getLastD ' ' = d := by
      rw [List.getLastD_eq_getLast?, hd]
      rfl
    rw [← h5]
    exact hlast
  rw [h3, List.reverse_reverse]

theorem trimCutset_open_quoted {v : List Char} (hv : v ≠ [])
    (hq : ∀ a ∈ v, isQuoteChar a = false) :
    trimCutset (dquoteChar :: v) = v := by
  obtain ⟨c, cs, rfl⟩ : ∃ c cs, v = c :: cs := by
    cases v with
    | nil => exact absurd rfl hv
    | cons c cs => exact ⟨c, cs, rfl⟩
  unfold trimCutset
  have hdq : isQuoteChar dquoteChar = true := by decide
  have hc : isQuoteChar c = false := hq c (List.mem_cons_self c cs)
  rw [List.dropWhile_cons_of_pos hdq,
    List.dropWhile_cons_of_neg (by simp [hc]),
    dropWhile_eq_self_of_all (fun a ha => hq a (List.mem_reverse.mp ha)),
    List.reverse_reverse]

theorem matchFlagAt_cons_ne {c : Char} {rest : List Char} (h : ¬ c = '-') :
    matchFlagAt (c :: rest) = none := by
  simp [matchFlagAt, h]

theorem findMatches_eq_nil_of_no_dash {l : List Char}
    (h : ∀ a ∈ l, ¬ a = '-') : findMatches l = [] := by
  induction l with
  | nil => rfl
  | cons c rest ih =>
    rw [findMatches_cons_none
      (matchFlagAt_cons_ne (h c (List.mem_cons_self c rest)))]
    exact ih fun a ha => h a (List.mem_cons_of_mem c ha)

/-- The flag submatch for a one-letter flag followed by a space. -/
theorem matchFlagAt_short {ch : Char} (X : List Char)
    (h : isWordChar ch = true) :
    matchFlagAt ('-' :: ch :: ' ' :: X) = some (['-', ch], ' ' :: X) := by
  have hne : ¬ ch = '-' := fun he => by subst he; simp [isWordChar] at h
  have hsp : isWordChar ' ' = false := by decide
  simp [matchFlagAt, hne, h, hsp]

/-- The value group after a space: an unquoted nonempty run up to the
next space, the rest untouched. -/
theorem matchValueGroup_space_run {x : Char} {xs ys : List Char}
    (hx1 : ¬ x = dquoteChar) (hx2 : ¬ x = squoteChar)
    (hall : ∀ a ∈ x :: xs, notSpaceChar a = true) :
    matchValueGroup (' ' :: ((x :: xs) ++ ' ' :: ys)) =
      some (x :: xs, ' ' :: ys) := by
  have hsp : notSpaceChar ' ' = false := by decide
  simp only [matchValueGroup, List.cons_append]
  rw [if_pos (by decide)]
  rw [if_neg hx1, if_neg hx2]
  unfold nonSpaceRun
  rw [show (x :: (xs ++ ' ' :: ys)) = ((x :: xs) ++ ' ' :: ys) by simp,
    List.takeWhile_append_of_pos (by simpa using hall),
    List.takeWhile_cons_of_neg (by simp [hsp]),
    List.dropWhile_append_of_pos (by simpa using hall),
    List.dropWhile_cons_of_neg (by simp [hsp])]
  simp

/-- The value group after a space: a terminated double-quoted value. -/
theorem matchValueGroup_quoted {v : List Char} (hdq : dquoteChar ∉ v) :
    matchValueGroup (' ' :: dquoteChar :: (v ++ [dquoteChar])) =
      some (dquoteChar :: v ++ [dquoteChar], []) := by
  simp [matchValueGroup, splitAtFirst_append_self hdq]

/-- The value group after a space: a terminated single-quoted value
(the double-quote alternative does not apply, the single-quote one
does). -/
theorem matchValueGroup_quoted_single {v : List Char}
    (hsq : squoteChar ∉ v) :
    matchValueGroup (' ' :: squoteChar :: (v ++ [squoteChar])) =
      some (squoteChar :: v ++ [squoteChar], []) := by
  have hne : ¬ squoteChar = dquoteChar := by decide
  simp [matchValueGroup, hne, splitAtFirst_append_self hsq]

/-- The value group after a space: an unterminated double-quoted value
falls back to the non-space run starting at the quote character. -/
theorem matchValueGroup_unterminated {v ys : List Char}
    (hv : dquoteChar ∉ v) (hy : dquoteChar ∉ ys)
    (hall : ∀ a ∈ v, notSpaceChar a = true) :
    matchValueGroup (' ' :: dquoteChar :: (v ++ ' ' :: ys)) =
      some (dquoteChar :: v, ' ' :: ys) := by
  have hsp : notSpaceChar ' ' = false := by decide
  have hnone : splitAtFirst dquoteChar (v ++ ' ' :: ys) = none := by
    refine splitAtFirst_eq_none fun hm => ?_
    rcases List.mem_append.mp hm with h1 | h1
    · exact hv h1
    · rcases List.mem_cons.mp h1 with h2 | h2
      · exact absurd h2 (by decide)
      · exact hy h2
  have hq1 : notSpaceChar dquoteChar = true := by decide
  have hrun : nonSpaceRun (dquoteChar :: (v ++ ' ' :: ys)) =
      some (dquoteChar :: v, ' ' :: ys) := by
    unfold nonSpaceRun
    rw [List.takeWhile_cons_of_pos hq1,
      List.takeWhile_append_of_pos (by simpa using hall),
      List.takeWhile_cons_of_neg (by simp [hsp]),
      List.dropWhile_cons_of_pos hq1,
      List.dropWhile_append_of_pos (by simpa using hall),
      List.dropWhile_cons_of_neg (by simp [hsp])]
    simp
  simp [matchValueGroup, hnone, hrun]

/-! ### Resolution facts -/

theorem setBool_rtt (name : String) (b : Bool) (c : Configuration) :
    (setBool name b c).rtt = c.rtt := by
  unfold setBool
  repeat' split
  all_goals rfl

theorem setStr_rtt (name : String) (v : String) (c : Configuration) :
    (setStr name v c).rtt = c.rtt := by
  unfold setStr
  repeat' split
  all_goals rfl

/-- fs.Parse never writes the rtt variable: it is not registered on fs. -/
theorem fsParse_rtt : ∀ (args : List String) (c c' : Configuration),
    fsParse args c = Except.ok c' → c'.rtt = c.rtt
  | [], c, c', h => by
    simp only [fsParse] at h
    injection h with h1
    rw [← h1]
  | s :: rest, c, c', h => by
    simp only [fsParse] at h
    cases hf : flagNameChars s with
    | none =>
      simp only [hf] at h
      injection h with h1
      rw [← h1]
    | some nameChars =>
      simp only [hf] at h
      cases nameChars with
      | nil => exact Except.noConfusion h
      | cons hd tl =>
        repeat' split at h
        all_goals
          first
            | exact Except.noConfusion h
            | (rw [fsParse_rtt rest _ c' h, setBool_rtt])
            | (rw [fsParse_rtt rest _ c' h, setStr_rtt])
            | (rw [fsParse_rtt _ _ c' h, setStr_rtt])
termination_by args => args.length
decreasing_by
  all_goals simp_all [List.length_cons]
  all_goals omega

/-! ### Small string-side helpers for the claim statements -/

theorem toList_ne_nil {v : String} (h : v ≠ "") : v.toList ≠ [] :=
  fun h0 => h (String.toList_inj.mp (by rw [h0]; rfl))

theorem all_not_quote {v : String} (h1 : dquoteChar ∉ v.toList)
    (h2 : squoteChar ∉ v.toList) :
    ∀ a ∈ v.toList, isQuoteChar a = false := by
  intro a ha
  have hq1 : ¬ a = dquoteChar := fun he => h1 (he ▸ ha)
  have hq2 : ¬ a = squoteChar := fun he => h2 (he ▸ ha)
  simp [isQuoteChar, hq1, hq2]

theorem all_not_space {v : String} (h : ' ' ∉ v.toList) :
    ∀ a ∈ v.toList, notSpaceChar a = true := by
  intro a ha
  have hne : ¬ a = ' ' := fun he => h (he ▸ ha)
  simp [notSpaceChar, hne]

theorem no_dash_after_space {w : String} (h : '-' ∉ w.toList) :
    ∀ a ∈ (' ' :: w.toList), ¬ a = '-' := by
  intro a ha
  rcases List.mem_cons.mp ha with h1 | h1
  · subst h1; decide
  · exact fun he => h (he ▸ h1)

theorem replaceAllFuel_of_not_contains {pat new : List Char} :
    ∀ (fuel : Nat) (l : List Char), containsSub pat l = false →
      replaceAllFuel pat new fuel l = l
  | 0, l, _ => by cases l <;> rfl
  | _ + 1, [], _ => rfl
  | fuel + 1, c :: rest, h => by
    have hparts : startsWith pat (c :: rest) = false ∧
        containsSub pat rest = false := by
      simpa only [containsSub, Bool.or_eq_false_iff] using h
    have hpe : pat.isEmpty = false := by
      cases pat with
      | nil => simp [startsWith] at hparts
      | cons _ _ => rfl
    simp [replaceAllFuel, hpe, hparts.1,
      replaceAllFuel_of_not_contains fuel rest hparts.2]

/-! ### The claims -/

/-- C1: the claim says that supplying -rtt n resolves to a
Configuration with rtt = n, and that rtt defaults to 1000. In the code,
rtt is registered via flag.Int on the package-global FlagSet while
parsing uses the local fs, so fs.Parse fails fatally on any -rtt
argument, and every successful resolution leaves rtt at its
registration default 1000. -/
theorem c1_rtt_registered_on_wrong_flagset :
    RunWarpConfig "-rtt 500" =
      Except.error "flag provided but not defined: -rtt" ∧
    RunWarpConfig "" = Except.ok defaultConfig ∧
    defaultConfig.rtt = 1000 ∧
    (∀ (s : String) (cfg : Configuration),
      RunWarpConfig s = Except.ok cfg → cfg.rtt = 1000) := by
  refine ⟨by decide, by decide, rfl, ?_⟩
  intro s cfg h
  exact (fsParse_rtt (parseCommandLine s).1 defaultConfig cfg h).trans rfl

theorem c1_rtt_registered_on_wrong_flagset_witness :
    RunWarpConfig "-rtt 500" =
      Except.error "flag provided but not defined: -rtt" ∧
    defaultConfig.rtt = 1000 :=
  ⟨c1_rtt_registered_on_wrong_flagset.1,
    c1_rtt_registered_on_wrong_flagset.2.2.2 "" defaultConfig (by decide)⟩

/-- C2 (counterexample): the claim says a token is emitted as a value
only when it is not itself a new flag, so for the input
"-v -b 10.11.12.13:80" the tokens would be
["-v", "-b", "10.11.12.13:80"]. In fact the regexp consumes "-b" as
the value of -v and the address, no longer preceded by a flag, is
dropped. -/
theorem c2_flag_as_value_counterexample :
    (parseCommandLine "-v -b 10.11.12.13:80").1 = ["-v", "-b"] ∧
    ¬ (parseCommandLine "-v -b 10.11.12.13:80").1 =
        ["-v", "-b", "10.11.12.13:80"] :=
  ⟨by decide, by decide⟩

/-- C2 (amended): after a flag, any nonempty run of non-space
characters separated by an equals sign or a single space is emitted as
the value, including a token that is itself a new flag: a flag
immediately followed by another flag consumes that flag as its value,
and a value following the consumed flag is dropped. -/
theorem c2_value_emission_amended (g w : String)
    (hg : g.toList.head? = some '-')
    (hgs : ' ' ∉ g.toList) (hgdq : dquoteChar ∉ g.toList)
    (hgsq : squoteChar ∉ g.toList) (hw : '-' ∉ w.toList) :
    (parseCommandLine ("-v " ++ g ++ " " ++ w)).1 = ["-v", g] := by
  obtain ⟨t, hgl⟩ : ∃ t, g.toList = '-' :: t := by
    cases hgl : g.toList with
    | nil => rw [hgl] at hg; exact Option.noConfusion hg
    | cons c cs =>
      rw [hgl] at hg
      simp only [List.head?_cons, Option.some.injEq] at hg
      exact ⟨cs, by rw [hg]⟩
  have hl : ("-v " ++ g ++ " " ++ w).toList =
      '-' :: 'v' :: ' ' :: (g.toList ++ ' ' :: w.toList) := by
    show ("-v " ++ g ++ " " ++ w).data = _
    simp only [String.data_append]
    show ['-', 'v', ' '] ++ g.data ++ [' '] ++ w.data = _
    simp [List.append_assoc]
  have hall : ∀ a ∈ g.toList, notSpaceChar a = true := all_not_space hgs
  have hquot : ∀ a ∈ g.toList, isQuoteChar a = false :=
    all_not_quote hgdq hgsq
  have hd1 : ¬ ('-' : Char) = dquoteChar := by decide
  have hd2 : ¬ ('-' : Char) = squoteChar := by decide
  unfold parseCommandLine
  rw [hl, hgl,
    findMatches_cons_some_some
      (@matchFlagAt_short 'v' (('-' :: t) ++ ' ' :: w.toList) (by decide))
      (@matchValueGroup_space_run '-' t w.toList hd1 hd2 (hgl ▸ hall)),
    findMatches_eq_nil_of_no_dash (no_dash_after_space hw)]
  have htrim : trimCutset ('-' :: t) = '-' :: t :=
    trimCutset_eq_self (hgl ▸ hquot)
  have h1 : List.asString ['-', 'v'] = "-v" := rfl
  have h2 : List.asString ('-' :: t) = g := by
    rw [← hgl]; exact String.asString_toList g
  simp [matchTokens, htrim, h1, h2]

theorem c2_value_emission_amended_witness :
    (parseCommandLine ("-v " ++ "-b" ++ " " ++ "10.11.12.13:80")).1 =
      ["-v", "-b"] :=
  c2_value_emission_amended "-b" "10.11.12.13:80"
    (by decide) (by decide) (by decide) (by decide) (by decide)

/-- C3 (counterexample): the claim says the forwarding engine receives
exactly the resolved bind address. Resolving "-b 0.0.0.0:8086"
succeeds, yet the options hand the engine "127.0.0.1:8086", because
runServer rewrites 0.0.0.0 to 127.0.0.1. -/
theorem c3_socks_address_counterexample :
    RunWarpConfig "-b 0.0.0.0:8086" =
      Except.ok { defaultConfig with bindAddress := "0.0.0.0:8086" } ∧
    (runServerStartOptions
        { defaultConfig with bindAddress := "0.0.0.0:8086" } 3).socks5Server =
      "127.0.0.1:8086" ∧
    ¬ (runServerStartOptions
        { defaultConfig with bindAddress := "0.0.0.0:8086" } 3).socks5Server =
      "0.0.0.0:8086" :=
  ⟨by decide, by decide, by decide⟩

/-- C3 (amended): the forwarding engine is started with the resolved
bind address in which every occurrence of 0.0.0.0 is replaced by
127.0.0.1 - in particular with exactly the bind address whenever it
does not contain 0.0.0.0 - together with the fixed options: fake IP
range 24.0.0.0/8, MTU 0 (automatic), IPv6 enabled, LAN allowed. -/
theorem c3_start_options_amended (cfg : Configuration) (fd : Int)
    (h : containsSub ("0.0.0.0".toList) (cfg.bindAddress.toList) = false) :
    runServerStartOptions cfg fd =
      { tunFd := fd, socks5Server := cfg.bindAddress,
        fakeIPRange := "24.0.0.0/8", mtu := 0,
        enableIPv6 := true, allowLan := true } := by
  unfold runServerStartOptions goReplaceAll replaceAllList
  rw [replaceAllFuel_of_not_contains _ _ h, String.asString_toList]

theorem c3_start_options_amended_witness :
    runServerStartOptions defaultConfig 7 =
      { tunFd := 7, socks5Server := defaultConfig.bindAddress,
        fakeIPRange := "24.0.0.0/8", mtu := 0,
        enableIPv6 := true, allowLan := true } :=
  c3_start_options_amended defaultConfig 7 (by decide)

/-- C4 (counterexample): the claim says an unterminated quote makes
the whole remainder of the input the value. In fact the quote
alternative fails and the fallback run stops at the next space: for
the input with value "10.0.0.1 backup the resolved value is 10.0.0.1
and the word backup is dropped. -/
theorem c4_unterminated_quote_counterexample :
    (parseCommandLine "-e \"10.0.0.1 backup").1 = ["-e", "10.0.0.1"] ∧
    ¬ (parseCommandLine "-e \"10.0.0.1 backup").1 =
        ["-e", "10.0.0.1 backup"] :=
  ⟨by decide, by decide⟩

/-- C4 (amended): on an unterminated quote the tokenizer still does
not fail; the opening quote and the following characters up to the
next space become the flag's value (quote characters trimmed), and the
text after the space is scanned independently - dropped when it
contains no flag. -/
theorem c4_unterminated_quote_amended (v w : String) (hne : v ≠ "")
    (hdqv : dquoteChar ∉ v.toList) (hsqv : squoteChar ∉ v.toList)
    (hspv : ' ' ∉ v.toList)
    (hdqw : dquoteChar ∉ w.toList) (hdashw : '-' ∉ w.toList) :
    (parseCommandLine ("-e \"" ++ v ++ " " ++ w)).1 = ["-e", v] ∧
    (parseCommandLine ("-e \"" ++ v ++ " " ++ w)).2 = none := by
  have hvl : v.toList ≠ [] := toList_ne_nil hne
  have hl : ("-e \"" ++ v ++ " " ++ w).toList =
      '-' :: 'e' :: ' ' :: dquoteChar :: (v.toList ++ ' ' :: w.toList) := by
    show ("-e \"" ++ v ++ " " ++ w).data = _
    simp only [String.data_append]
    show ['-', 'e', ' ', dquoteChar] ++ v.toList ++ [' '] ++ w.toList = _
    simp [List.append_assoc]
  refine ⟨?_, rfl⟩
  unfold parseCommandLine
  rw [hl,
    findMatches_cons_some_some
      (@matchFlagAt_short 'e'
        (dquoteChar :: (v.toList ++ ' ' :: w.toList)) (by decide))
      (matchValueGroup_unterminated hdqv hdqw (all_not_space hspv)),
    findMatches_eq_nil_of_no_dash (no_dash_after_space hdashw)]
  have htrim : trimCutset (dquoteChar :: v.toList) = v.toList :=
    trimCutset_open_quoted hvl (all_not_quote hdqv hsqv)
  have htrimd : trimCutset (dquoteChar :: v.data) = v.data := htrim
  have h1 : List.asString ['-', 'e'] = "-e" := rfl
  have h2 : List.asString v.toList = v := String.asString_toList v
  have h2d : List.asString v.data = v := h2
  simp [matchTokens, htrim, htrimd, h1, h2, h2d]

theorem c4_unterminated_quote_amended_witness :
    (parseCommandLine ("-e \"" ++ "10.0.0.1" ++ " " ++ "backup")).1 =
        ["-e", "10.0.0.1"] ∧
    (parseCommandLine ("-e \"" ++ "10.0.0.1" ++ " " ++ "backup")).2 = none :=
  c4_unterminated_quote_amended "10.0.0.1" "backup"
    (by decide) (by decide) (by decide) (by decide) (by decide) (by decide)

/-- C5: resolving an argument string that contains no flags (one whose
tokenization is empty) yields the full default Configuration. -/
theorem c5_zero_flags_defaults (s : String)
    (h : (parseCommandLine s).1 = []) :
    RunWarpConfig s =
      Except.ok
        { verbose := false
          bindAddress := "127.0.0.1:8086"
          endpoint := "notset"
          license := "notset"
          country := ""
          psiphonEnabled := false
          gool := false
          scan := false
          rtt := 1000 } := by
  unfold RunWarpConfig
  rw [h]
  rfl

theorem c5_zero_flags_defaults_witness :
    RunWarpConfig "plain text without flags" =
      Except.ok
        { verbose := false
          bindAddress := "127.0.0.1:8086"
          endpoint := "notset"
          license := "notset"
          country := ""
          psiphonEnabled := false
          gool := false
          scan := false
          rtt := 1000 } :=
  c5_zero_flags_defaults "plain text without flags" (by decide)

/-- C6 (counterexample): the claim says a quoted value is preserved
verbatim with only the surrounding quotes stripped. strings.Trim strips
the full quote cutset from both ends of the matched text, so a quote
character standing at an end of the quoted content is stripped too: the
double-quoted value a b' (wrapped in matching double quotes, internal
space kept) resolves the endpoint to a b, not a b'. -/
theorem c6_trim_strips_content_edge_quote_counterexample :
    (parseCommandLine "-e \"a b'\"").1 = ["-e", "a b"] ∧
    ¬ (parseCommandLine "-e \"a b'\"").1 = ["-e", "a b'"] ∧
    RunWarpConfig "-e \"a b'\"" =
      Except.ok { defaultConfig with endpoint := "a b" } ∧
    ¬ RunWarpConfig "-e \"a b'\"" =
      Except.ok { defaultConfig with endpoint := "a b'" } :=
  ⟨by decide, by decide, by decide, by decide⟩

/-- C6 (amended): a quoted value with internal spaces keeps its spaces,
but strings.Trim strips quote characters from both ends of the matched
text: the wrapping pair and additionally any quote characters standing
at the very ends of the quoted content. Whenever the content neither
begins nor ends with a quote character it is preserved exactly - inner
quote characters of the other kind included - for either kind of
wrapping quote; and resolution passes the token through verbatim into
the corresponding field for every string flag. -/
theorem c6_quoted_value_amended (v : String) (hsp : ' ' ∈ v.toList)
    (hhead : isQuoteChar (v.toList.headD ' ') = false)
    (hlast : isQuoteChar (v.toList.getLastD ' ') = false) :
    (dquoteChar ∉ v.toList →
      (parseCommandLine ("-e \"" ++ v ++ "\"")).1 = ["-e", v] ∧
      RunWarpConfig ("-e \"" ++ v ++ "\"") =
        Except.ok { defaultConfig with endpoint := v }) ∧
    (squoteChar ∉ v.toList →
      (parseCommandLine ("-e '" ++ v ++ "'")).1 = ["-e", v] ∧
      RunWarpConfig ("-e '" ++ v ++ "'") =
        Except.ok { defaultConfig with endpoint := v }) ∧
    (∀ u : String,
      fsParse ["-e", u] defaultConfig =
          Except.ok { defaultConfig with endpoint := u } ∧
      fsParse ["-b", u] defaultConfig =
          Except.ok { defaultConfig with bindAddress := u } ∧
      fsParse ["-k", u] defaultConfig =
          Except.ok { defaultConfig with license := u } ∧
      fsParse ["-country", u] defaultConfig =
          Except.ok { defaultConfig with country := u }) := by
  have hvl : v.toList ≠ [] := by
    intro h0
    rw [h0] at hsp
    exact absurd hsp (List.not_mem_nil ' ')
  refine ⟨?_, ?_, fun u => ⟨rfl, rfl, rfl, rfl⟩⟩
  · intro hdq
    have hl : ("-e \"" ++ v ++ "\"").toList =
        '-' :: 'e' :: ' ' :: dquoteChar :: (v.toList ++ [dquoteChar]) := by
      show ("-e \"" ++ v ++ "\"").data = _
      simp only [String.data_append]
      show ['-', 'e', ' ', dquoteChar] ++ v.toList ++ [dquoteChar] = _
      simp [List.append_assoc]
    have htoks :
        (parseCommandLine ("-e \"" ++ v ++ "\"")).1 = ["-e", v] := by
      unfold parseCommandLine
      rw [hl,
        findMatches_cons_some_some
          (@matchFlagAt_short 'e'
            (dquoteChar :: (v.toList ++ [dquoteChar])) (by decide))
          (matchValueGroup_quoted hdq)]
      have htrim : trimCutset (dquoteChar :: v.toList ++ [dquoteChar]) =
          v.toList := trimCutset_wrapped (by decide) hvl hhead hlast
      have htrimd : trimCutset (dquoteChar :: (v.data ++ [dquoteChar])) =
          v.data := htrim
      have h1 : List.asString ['-', 'e'] = "-e" := rfl
      have h2 : List.asString v.toList = v := String.asString_toList v
      have h2d : List.asString v.data = v := h2
      simp [matchTokens, findMatches, findMatchesFuel, htrim, htrimd, h1,
        h2, h2d]
    refine ⟨htoks, ?_⟩
    unfold RunWarpConfig
    rw [htoks]
    rfl
  · intro hsq
    have hl : ("-e '" ++ v ++ "'").toList =
        '-' :: 'e' :: ' ' :: squoteChar :: (v.toList ++ [squoteChar]) := by
      show ("-e '" ++ v ++ "'").data = _
      simp only [String.data_append]
      show ['-', 'e', ' ', squoteChar] ++ v.toList ++ [squoteChar] = _
      simp [List.append_assoc]
    have htoks :
        (parseCommandLine ("-e '" ++ v ++ "'")).1 = ["-e", v] := by
      unfold parseCommandLine
      rw [hl,
        findMatches_cons_some_some
          (@matchFlagAt_short 'e'
            (squoteChar :: (v.toList ++ [squoteChar])) (by decide))
          (matchValueGroup_quoted_single hsq)]
      have htrim : trimCutset (squoteChar :: v.toList ++ [squoteChar]) =
          v.toList := trimCutset_wrapped (by decide) hvl hhead hlast
      have htrimd : trimCutset (squoteChar :: (v.data ++ [squoteChar])) =
          v.data := htrim
      have h1 : List.asString ['-', 'e'] = "-e" := rfl
      have h2 : List.asString v.toList = v := String.asString_toList v
      have h2d : List.asString v.data = v := h2
      simp [matchTokens, findMatches, findMatchesFuel, htrim, htrimd, h1,
        h2, h2d]
    refine ⟨htoks, ?_⟩
    unfold RunWarpConfig
    rw [htoks]
    rfl

theorem c6_quoted_value_amended_witness :
    (parseCommandLine ("-e \"" ++ "10.0.0.1 backup" ++ "\"")).1 =
        ["-e", "10.0.0.1 backup"] ∧
    RunWarpConfig ("-e \"" ++ "10.0.0.1 backup" ++ "\"") =
      Except.ok { defaultConfig with endpoint := "10.0.0.1 backup" } :=
  (c6_quoted_value_amended "10.0.0.1 backup"
    (by decide) (by decide) (by decide)).1 (by decide)

/-- C7: draining the log buffer returns all buffered lines joined with
a newline and clears the buffer, so an immediately following call
returns the empty string; on an empty buffer it returns the empty
string and leaves the buffer unchanged. -/
theorem c7_log_drain (buf : List String) :
    (GetLogMessages buf).1 = String.intercalate "\n" buf ∧
    (GetLogMessages buf).2 = [] ∧
    GetLogMessages (GetLogMessages buf).2 = ("", []) ∧
    (buf = [] → GetLogMessages buf = ("", buf)) := by
  cases buf with
  | nil => exact ⟨rfl, rfl, rfl, fun _ => rfl⟩
  | cons a rest => exact ⟨rfl, rfl, rfl, fun hc => absurd hc (by simp)⟩

theorem c7_log_drain_witness :
    (GetLogMessages ["a", "b"]).1 = String.intercalate "\n" ["a", "b"] ∧
    GetLogMessages [] = ("", []) :=
  ⟨(c7_log_drain ["a", "b"]).1, (c7_log_drain []).2.2.2 rfl⟩

/-- C8: in every complete session of the supervisor model (one whose
trace ends with RunWarp returning), the completion-relevant events
occur in exactly the order: lwip.Stop, then the WaitGroup release,
then the return - the engine is stopped before the synchronizer is
released, and the synchronizer reaches zero before RunWarp returns. -/
theorem c8_stop_before_done_before_return (tr : List Ev) (s : SupState)
    (h : SupRun initSup tr s) (hm : s.mainPc = 3) :
    tr.filter isCompletionEv = [Ev.stop, Ev.wgDone, Ev.ret] := by
  have hi : SupInv initSup := by
    constructor
    · decide
    · exact ⟨by decide, by decide, by decide, by decide⟩
  obtain ⟨hfin, heq⟩ := supRun_completion h hi
  obtain ⟨h1, h2, h3, h4, h5⟩ := hfin
  have hw0 : s.wg = 0 := h2 (by omega)
  have hs4 : s.srvPc = 4 := h1.mp hw0
  have hinit : completionEvsOf initSup = [] := rfl
  rw [hinit, List.nil_append] at heq
  rw [← heq]
  simp [completionEvsOf, hs4, hm]

theorem c8_stop_before_done_before_return_witness :
    List.filter isCompletionEv
        [Ev.lwipStart, Ev.sigCancel, Ev.ctxDone, Ev.stop, Ev.wgDone,
          Ev.wgWait, Ev.ret] =
      [Ev.stop, Ev.wgDone, Ev.ret] :=
  c8_stop_before_done_before_return _ _
    (SupRun.cons (SupStep.start initSup rfl)
      (SupRun.cons (SupStep.cancel _ rfl)
        (SupRun.cons (SupStep.ctxDone _ rfl rfl)
          (SupRun.cons (SupStep.stop _ rfl)
            (SupRun.cons (SupStep.done _ rfl)
              (SupRun.cons (SupStep.wait _ rfl rfl)
                (SupRun.cons (SupStep.ret _ rfl)
                  (SupRun.nil _))))))))
    rfl

/-- C9: calling Shutdown while no session is active (cancelFunc is
nil) performs no cancellation and no process exit and leaves the state
unchanged. -/
theorem c9_shutdown_noop_when_inactive (s : AppState)
    (h : s.cancelFuncSet = false) : Shutdown s = (s, []) := by
  simp [Shutdown, h]

theorem c9_shutdown_noop_when_inactive_witness :
    Shutdown { cancelFuncSet := false, logMessages := ["pending line"] } =
      ({ cancelFuncSet := false, logMessages := ["pending line"] }, []) :=
  c9_shutdown_noop_when_inactive
    { cancelFuncSet := false, logMessages := ["pending line"] } rfl

/-- C10: the tokenizer is total - it returns a nil error on every
input - and text not attached to a flag pattern is silently dropped:
leading junk before a flag disappears, and an input without any flag
yields the empty token list. -/
theorem c10_tokenizer_never_fails :
    (∀ s : String, (parseCommandLine s).2 = none) ∧
    (parseCommandLine "junk -v").1 = ["-v"] ∧
    (parseCommandLine "plain words only").1 = [] :=
  ⟨fun _ => rfl, by decide, by decide⟩

end Oblivion
